import Mathlib

/-!
Shallow embedding of `merge_ows.py`, a batch pipeline that flattens three
difficulty-tagged JSON files of word records, enriches each record with a
part-of-speech label and a heuristic note, and assigns sequential ids.

The external spaCy tagger is opaque: it is modelled as a parameter
`nlp : String → List Token` returning, per token, the surface text, the
lemma and the coarse POS label.  Fallible operations (indexing `doc[0]`
on a possibly empty token list) are modelled with `Option`.
-/

namespace MergeOws

/-- A token as returned by the opaque tagging capability: surface text
(`token.text`), lemma (`token.lemma_`) and coarse POS label (`token.pos_`). -/
structure Token where
  text : String
  lemma_ : String
  pos : String
deriving DecidableEq, Repr

/-- Python `str.lower()` (per-character ASCII lowering, matching
`Char.toLower` on the ASCII range the program uses). -/
def lowerStr (s : String) : String :=
  String.mk (s.data.map Char.toLower)

/-- Auxiliary for substring containment over character lists:
`containsAux pat l` is true iff `pat` occurs contiguously inside `l`. -/
def containsAux (pat : List Char) : List Char → Bool
  | [] => pat.isEmpty
  | c :: rest => pat.isPrefixOf (c :: rest) || containsAux pat rest

/-- Python `pat in s` (substring containment). -/
def strContains (s pat : String) : Bool :=
  containsAux pat.data s.data

/-- Python `s.startswith(pat)`. -/
def startsWithB (s pat : String) : Bool :=
  pat.data.isPrefixOf s.data

/-- The list `note_parts` built by `generate_note` (source lines 35–87):
each heuristic rule independently appends its fragment, except the
Greek/Latin origin pair which is an `if`/`elif`. -/
def note_parts (word meaning origin : String) : List String :=
  let word_lower := lowerStr word
  let meaning_lower := lowerStr meaning
  let origin_lower := if origin ≠ "" then lowerStr origin else ""
  (if strContains word_lower "phobia" then
    ["Suffix \x27-phobia\x27 denotes an extreme or irrational fear."] else []) ++
  (if strContains word_lower "cide" then
    ["Suffix \x27-cide\x27 refers to the act of killing (e.g., suicide, homicide)."] else []) ++
  (if strContains word_lower "cracy" || strContains word_lower "arch" then
    ["Suffixes like \x27-cracy\x27 or \x27-archy\x27 typically refer to forms of government or rule."] else []) ++
  (if strContains word_lower "logy" then
    ["Suffix \x27-logy\x27 usually means \x27the study of\x27."] else []) ++
  (if strContains word_lower "theist" || strContains word_lower "theism" then
    ["Root \x27theos\x27 refers to God."] else []) ++
  (if strContains word_lower "vorous" then
    ["Suffix \x27-vorous\x27 indicates feeding habits (e.g., carnivorous)."] else []) ++
  (if strContains word_lower "ambi" then
    ["Prefix \x27ambi-\x27 means \x27both\x27 or \x27around\x27."] else []) ++
  (if strContains word_lower "bene" then
    ["Prefix \x27bene-\x27 means \x27good\x27 or \x27well\x27."] else []) ++
  (if strContains word_lower "mal" && !(startsWithB word_lower "male") then
    ["Prefix \x27mal-\x27 typically means \x27bad\x27 or \x27evil\x27."] else []) ++
  (if strContains word_lower "somn" then
    ["Root \x27somnus\x27 relates to sleep."] else []) ++
  (if strContains word_lower "bell" && strContains meaning_lower "war" then
    ["Root \x27bellum\x27 means war."] else []) ++
  (if strContains word_lower "greg" then
    ["Root \x27grex\x27 or \x27greg-\x27 refers to a flock or herd."] else []) ++
  (if strContains origin_lower "Greek" then
    ["This term has its roots in Greek mythology or language."]
   else if strContains origin_lower "Latin" then
    ["Derived from Latin."] else []) ++
  (if strContains meaning_lower "med." || strContains meaning_lower "medicine"
      || strContains meaning_lower "disease" then
    ["Often used in medical contexts."] else []) ++
  (if strContains meaning_lower "law" || strContains meaning_lower "legal" then
    ["Frequently used in legal terminology."] else []) ++
  (if word_lower == "egoist" then
    ["Don\x27t confuse with \x27egotist\x27 (someone who talks excessively about themselves)."] else []) ++
  (if word_lower == "immigrant" then
    ["Compare with \x27emigrant\x27 (one who leaves a country)."] else []) ++
  (if word_lower == "emigrant" then
    ["Compare with \x27immigrant\x27 (one who enters a country)."] else []) ++
  (if strContains word_lower "stationary" then
    ["Not to be confused with \x27stationery\x27 (writing materials)."] else []) ++
  (if strContains word_lower "stationery" then
    ["Not to be confused with \x27stationary\x27 (not moving)."] else [])

/-- Embedding of `generate_note` (source lines 30–92): join the fragments
with single spaces, or return the empty string when no rule fired. -/
def generate_note (word meaning origin : String) : String :=
  let parts := note_parts word meaning origin
  if parts ≠ [] then String.intercalate " " parts else ""

/-- Auxiliary for Python `str.title()`: uppercase each letter that starts
an alphabetic run, lowercase the rest.  The boolean says whether the
previous character was alphabetic. -/
def titleAux : Bool → List Char → List Char
  | _, [] => []
  | prevAlpha, c :: cs =>
    if c.isAlpha then
      (if prevAlpha then c.toLower else c.toUpper) :: titleAux true cs
    else c :: titleAux false cs

/-- Python `str.title()` on the ASCII labels this program handles. -/
def strTitle (s : String) : String :=
  String.mk (titleAux false s.data)

/-- The `pos_map` dict of `process_file` (source lines 125–128). -/
def pos_map : List (String × String) :=
  [("NOUN", "Noun"), ("VERB", "Verb"), ("ADJ", "Adjective"), ("ADV", "Adverb"),
   ("PROPN", "Proper Noun"), ("PRON", "Pronoun")]

/-- Embedding of `pos_map.get(pos, pos.title())` (source line 129). -/
def mapPos (p : String) : String :=
  (pos_map.lookup p).getD (strTitle p)

/-- Embedding of `get_pos` (source lines 9–28), parametric over the opaque tagger
`nlp`.  `doc[0]` on a possibly empty token list is modelled with
`List.head?`, so the function is `Option`-valued: `none` is Python
raising `IndexError`. -/
def get_pos (nlp : String → List Token) (word sentence : String) : Option String :=
  if sentence = "" then
    ((nlp word).head?).map Token.pos
  else
    let doc := nlp sentence
    match (nlp word).head? with
    | none => none
    | some t0 =>
      let target_lemma := lowerStr t0.lemma_
      match doc.find? (fun tok =>
          lowerStr tok.lemma_ == target_lemma || lowerStr tok.text == lowerStr word) with
      | some tok => some tok.pos
      | none => ((nlp word).head?).map Token.pos

/-- An input word record: every field the program reads is optional,
`item.get(key, default)` supplies the defaults. -/
structure WordRecord where
  word : Option String := none
  meaning_en : Option String := none
  meaning_hi : Option String := none
  usage_sentences : Option (List String) := none
  origin : Option String := none
deriving DecidableEq, Repr

/-- The constant `sourceInfo` block of every output entry. -/
structure SourceInfo where
  pdfName : String
  examYear : Nat
deriving DecidableEq, Repr

/-- The `properties` block of an output entry. -/
structure Properties where
  difficulty : String
  status : String
deriving DecidableEq, Repr

/-- The `content` block of an output entry. -/
structure Content where
  id : Nat
  pos : String
  word : String
  meaning_en : String
  meaning_hi : String
  usage_sentences : List String
  note : String
  origin : String
deriving DecidableEq, Repr

/-- One element of the output array (source lines 131–151); the top-level
`id` is the decimal string of the numeric `content.id`. -/
structure OutputEntry where
  id : String
  sourceInfo : SourceInfo
  properties : Properties
  content : Content
deriving DecidableEq, Repr

/-- The body of the `for item in all_words` loop (source lines 111–153)
for a single record: extract fields with defaults, resolve the POS from
the first usage sentence (empty string when there is none), generate the
note, and build the output entry.  `none` when `get_pos` fails. -/
def processItem (nlp : String → List Token) (difficulty : String) (current_id : Nat)
    (item : WordRecord) : Option OutputEntry :=
  let word := item.word.getD ""
  let meaning := item.meaning_en.getD ""
  let usage_sentences := item.usage_sentences.getD []
  let origin := item.origin.getD ""
  let first_sentence := match usage_sentences with
    | [] => ""
    | s :: _ => s
  (get_pos nlp word first_sentence).map (fun rawPos =>
      { id := toString current_id
        sourceInfo := { pdfName := "Blackbook", examYear := 2025 }
        properties := { difficulty := difficulty, status := "Active" }
        content :=
          { id := current_id
            pos := mapPos rawPos
            word := word
            meaning_en := meaning
            meaning_hi := item.meaning_hi.getD ""
            usage_sentences := usage_sentences
            note := generate_note word meaning origin
            origin := origin } })

/-- The record loop of `process_file`, threading the id counter. -/
def processItems (nlp : String → List Token) (difficulty : String) :
    List WordRecord → Nat → Option (List OutputEntry × Nat)
  | [], current_id => some ([], current_id)
  | item :: rest, current_id =>
    match processItem nlp difficulty current_id item with
    | none => none
    | some entry =>
      match processItems nlp difficulty rest (current_id + 1) with
      | none => none
      | some (entries, next_id) => some (entry :: entries, next_id)

/-- Parsed JSON content of one input file: a mapping (association list in
iteration order, each value either a list of records or something else),
a flat list of records, or any other JSON value. -/
inductive FileData where
  | dict : List (String × Option (List WordRecord)) → FileData
  | list : List WordRecord → FileData
  | other : FileData
deriving Repr

/-- The flattening step of `process_file` (source lines 102–109): a dict
contributes the lists under its keys in iteration order (non-list values
are skipped), a list is used as is, anything else gives no records. -/
def flattenData : FileData → List WordRecord
  | .dict pages =>
    pages.foldl (fun acc p =>
      match p.2 with
      | some items => acc ++ items
      | none => acc) []
  | .list items => items
  | .other => []

/-- Embedding of `process_file` (source lines 94–155) on already parsed content:
flatten, then process every record in order starting at `start_id`,
returning the entries and the next unused id. -/
def process_file (nlp : String → List Token) (data : FileData) (difficulty : String)
    (start_id : Nat) : Option (List OutputEntry × Nat) :=
  processItems nlp difficulty (flattenData data) start_id

/-- Embedding of `main` (source lines 157–177) on parsed file contents: process the
easy, moderate and hard files in order with the global id counter
threaded across files, and concatenate the results. -/
def main_result (nlp : String → List Token) (easy moderate hard : FileData) :
    Option (List OutputEntry) :=
  match process_file nlp easy "Easy" 1 with
  | none => none
  | some (items1, id1) =>
    match process_file nlp moderate "Medium" id1 with
    | none => none
    | some (items2, id2) =>
      match process_file nlp hard "Hard" id2 with
      | none => none
      | some (items3, _) => some (items1 ++ items2 ++ items3)

/-! ### Helper lemmas -/

/-- Membership in a conditional singleton segment of `note_parts`. -/
lemma mem_ite_singleton {c : Prop} [Decidable c] {a b : String} :
    a ∈ (if c then [b] else ([] : List String)) ↔ c ∧ a = b := by
  split <;> simp_all

/-- Membership in the conditional Greek/Latin segment of `note_parts`. -/
lemma mem_ite_ite_singleton {c d : Prop} [Decidable c] [Decidable d] {a g l : String} :
    a ∈ (if c then [g] else if d then [l] else ([] : List String)) ↔
      (c ∧ a = g) ∨ (¬ c ∧ d ∧ a = l) := by
  split
  · simp_all
  · split <;> simp_all

/-- The lowered origin computed by `generate_note` collapses to `lowerStr`. -/
lemma originLower_collapse (o : String) :
    (if o ≠ "" then lowerStr o else "") = lowerStr o := by
  split
  · rfl
  · rename_i h
    have ho : o = "" := by simpa using h
    subst ho
    rfl

/-- First-match semantics of `List.find?` on a decomposed list. -/
lemma find?_first {α : Type} (p : α → Bool) :
    ∀ (l₁ : List α) (tk : α) (l₂ : List α), p tk = true →
      (∀ x ∈ l₁, p x = false) → (l₁ ++ tk :: l₂).find? p = some tk := by
  intro l₁
  induction l₁ with
  | nil =>
    intro tk l₂ htk _
    simpa using List.find?_cons_of_pos _ htk
  | cons x xs ih =>
    intro tk l₂ htk hnone
    have hx : ¬ p x := by simpa using hnone x (by simp)
    simpa [List.find?_cons_of_neg _ hx] using ih tk l₂ htk (fun y hy => hnone y (by simp [hy]))

/-- Unfolding of the dict-flattening fold of `process_file`. -/
lemma flatten_dict_aux :
    ∀ (pages : List (String × Option (List WordRecord))) (acc : List WordRecord),
      pages.foldl (fun acc p =>
          match p.2 with
          | some items => acc ++ items
          | none => acc) acc
        = acc ++ (pages.filterMap (fun p => p.2)).flatten := by
  intro pages
  induction pages with
  | nil => intro acc; simp
  | cons p rest ih =>
    intro acc
    cases hp : p.2 <;> simp [hp, ih, List.filterMap_cons]

/-! ### Claim theorems -/

/-- C6.  Flattening a file's parsed content: a mapping yields the
concatenation of the lists found under its keys in iteration order
(for example a dict assigning `[a, b]` to key "1" and `[c]` to key "2"
yields `[a, b, c]`), a flat sequence is used unchanged, and any other
content yields the empty sequence. -/
theorem flatten_spec :
    ∀ (pages : List (String × Option (List WordRecord))) (items : List WordRecord)
      (a b c : WordRecord),
      flattenData (.dict pages) = (pages.filterMap (fun p => p.2)).flatten ∧
      flattenData (.dict [("1", some [a, b]), ("2", some [c])]) = [a, b, c] ∧
      flattenData (.list items) = items ∧
      flattenData .other = [] := by
  intro pages items a b c
  refine ⟨?_, ?_, rfl, rfl⟩
  · simpa using flatten_dict_aux pages []
  · rfl

/-- The fragment appended by the "mal" prefix rule. -/
def malFragment : String := "Prefix \x27mal-\x27 typically means \x27bad\x27 or \x27evil\x27."

/-- C7.  The "bad/evil" prefix fragment is emitted exactly when the
lower-cased word contains "mal" and does not start with "male"; words
containing "male" elsewhere (e.g. "tamale") and unrelated terms like
"formal" still receive it. -/
theorem mal_rule_iff :
    ∀ w m o : String,
      (malFragment ∈ note_parts w m o ↔
        strContains (lowerStr w) "mal" = true ∧ startsWithB (lowerStr w) "male" = false) ∧
      malFragment ∈ note_parts "formal" "" "" ∧
      malFragment ∈ note_parts "tamale" "" "" := by
  intro w m o
  refine ⟨?_, by decide, by decide⟩
  simp [note_parts, List.mem_append, mem_ite_singleton, mem_ite_ite_singleton, malFragment,
    Bool.and_eq_true, Bool.not_eq_true']

/-- The fragment appended by the "egoist" confusable rule. -/
def egoistFragment : String :=
  "Don\x27t confuse with \x27egotist\x27 (someone who talks excessively about themselves)."

/-- The fragment appended by the "immigrant" confusable rule. -/
def immigrantFragment : String := "Compare with \x27emigrant\x27 (one who leaves a country)."

/-- The fragment appended by the "emigrant" confusable rule. -/
def emigrantFragment : String := "Compare with \x27immigrant\x27 (one who enters a country)."

/-- The fragment appended by the "stationary" confusable rule. -/
def stationaryFragment : String :=
  "Not to be confused with \x27stationery\x27 (writing materials)."

/-- The fragment appended by the "stationery" confusable rule. -/
def stationeryFragment : String :=
  "Not to be confused with \x27stationary\x27 (not moving)."

/-- C9.  Confusable-word rules: the exact lower-cased words "egoist",
"immigrant" and "emigrant" always yield their comparison fragments, and
any word containing "stationary" (resp. "stationery") yields the
corresponding confusable-spelling fragment. -/
theorem confusable_rules :
    ∀ w m o : String,
      (lowerStr w = "egoist" → egoistFragment ∈ note_parts w m o) ∧
      (lowerStr w = "immigrant" → immigrantFragment ∈ note_parts w m o) ∧
      (lowerStr w = "emigrant" → emigrantFragment ∈ note_parts w m o) ∧
      (strContains (lowerStr w) "stationary" = true →
        stationaryFragment ∈ note_parts w m o) ∧
      (strContains (lowerStr w) "stationery" = true →
        stationeryFragment ∈ note_parts w m o) := by
  intro w m o
  refine ⟨fun h => ?_, fun h => ?_, fun h => ?_, fun h => ?_, fun h => ?_⟩ <;>
    simp [note_parts, List.mem_append, mem_ite_singleton, mem_ite_ite_singleton, h,
      egoistFragment, immigrantFragment, emigrantFragment, stationaryFragment,
      stationeryFragment]

/-- C9 witness: each confusable rule firing on a concrete input, the
exact-match ones on a word that lower-cases to the trigger. -/
theorem confusable_rules_witness :
    egoistFragment ∈ note_parts "Egoist" "" "" ∧
    immigrantFragment ∈ note_parts "immigrant" "" "" ∧
    emigrantFragment ∈ note_parts "Emigrant" "" "" ∧
    stationaryFragment ∈ note_parts "stationary" "" "" ∧
    stationeryFragment ∈ note_parts "stationery" "" "" :=
  ⟨(confusable_rules "Egoist" "" "").1 (by decide),
   (confusable_rules "immigrant" "" "").2.1 (by decide),
   (confusable_rules "Emigrant" "" "").2.2.1 (by decide),
   (confusable_rules "stationary" "" "").2.2.2.1 (by decide),
   (confusable_rules "stationery" "" "").2.2.2.2 (by decide)⟩

/-- C2.  Evaluation of the origin rules at concrete failing inputs: the
code checks the capitalized literals "Greek"/"Latin" against the
lower-cased origin, so no origin — "Greek", "Latin", or the hybrid —
ever produces an origin fragment, contradicting the claim that a
Greek-containing origin emits the Greek-origin fragment. -/
theorem origin_rules_never_fire_eval :
    generate_note "zeus" "" "Greek" = "" ∧
    note_parts "zeus" "" "Greek" = [] ∧
    note_parts "zeus" "" "Greek/Latin hybrid" = [] ∧
    note_parts "zeus" "" "Latin" = [] := by
  decide

/-- C4.  The note generator is deterministic and casing-insensitive: two
input triples with the same lower-casings produce the same note, and the
note is always the space-joined concatenation of the fragments in fixed
rule order (`String.intercalate` of the empty fragment list being the
empty string). -/
theorem note_deterministic_ordered :
    ∀ w m o w2 m2 o2 : String,
      lowerStr w = lowerStr w2 → lowerStr m = lowerStr m2 → lowerStr o = lowerStr o2 →
      generate_note w m o = generate_note w2 m2 o2 ∧
      generate_note w m o = String.intercalate " " (note_parts w m o) := by
  intro w m o w2 m2 o2 hw hm ho
  have hparts : note_parts w m o = note_parts w2 m2 o2 := by
    simp only [note_parts, originLower_collapse]
    rw [hw, hm, ho]
  constructor
  · simp only [generate_note, hparts]
  · simp only [generate_note]
    split
    · rfl
    · simp_all
      decide

/-- C4 witness: casing invariance and the join shape at a concrete pair
of inputs differing only in case. -/
theorem note_deterministic_ordered_witness :
    generate_note "AMBIDEXTROUS" "Using BOTH hands" "LATIN" =
      generate_note "ambidextrous" "using both hands" "latin" ∧
    generate_note "AMBIDEXTROUS" "Using BOTH hands" "LATIN" =
      String.intercalate " " (note_parts "AMBIDEXTROUS" "Using BOTH hands" "LATIN") :=
  note_deterministic_ordered "AMBIDEXTROUS" "Using BOTH hands" "LATIN"
    "ambidextrous" "using both hands" "latin" (by decide) (by decide) (by decide)

/-- A tagger stub that labels every whole text as a single adjective
token, used to evaluate the end-to-end pipeline concretely. -/
def nlpADJ : String → List Token :=
  fun s => [{ text := s, lemma_ := s, pos := "ADJ" }]

/-- The single input record of the end-to-end example. -/
def ambitiousRecord : WordRecord :=
  { word := some "ambitious", meaning_en := some "having strong desire",
    origin := some "Latin" }

/-- C3.  End-to-end evaluation on the single "ambitious"/Latin record:
the output is a single entry with id "1" and difficulty "Easy", but its
note holds only the "ambi-" prefix fragment — the "Derived from Latin."
fragment is absent (the origin rule compares the capitalized literal
against the lower-cased origin), contradicting the claim that the note
contains both fragments. -/
theorem end_to_end_ambitious_eval :
    main_result nlpADJ (.list [ambitiousRecord]) (.list []) (.list []) =
      some [{ id := "1",
              sourceInfo := { pdfName := "Blackbook", examYear := 2025 },
              properties := { difficulty := "Easy", status := "Active" },
              content :=
                { id := 1, pos := "Adjective", word := "ambitious",
                  meaning_en := "having strong desire", meaning_hi := "",
                  usage_sentences := [],
                  note := "Prefix \x27ambi-\x27 means \x27both\x27 or \x27around\x27.",
                  origin := "Latin" } }] ∧
    strContains "Prefix \x27ambi-\x27 means \x27both\x27 or \x27around\x27."
      "Derived from Latin." = false := by
  decide

/-- A tagger stub that returns an empty token list on every text, as real
tokenizers do on the empty string. -/
def nlpEmpty : String → List Token := fun _ => []

/-- A tagger stub that labels every whole text as a single noun token. -/
def nlpNOUN : String → List Token :=
  fun s => [{ text := s, lemma_ := s, pos := "NOUN" }]

/-- C5 counterexample: on a record with both "word" and "meaning_en"
missing, a tagging capability that returns no tokens for the empty
string (as real tokenizers do) makes `doc[0]` fail inside `get_pos`, so
no output entry is produced for the record. -/
theorem processItem_missing_word_fails :
    processItem nlpEmpty "Easy" 1 {} = none ∧
    ({} : WordRecord).word = none ∧ ({} : WordRecord).meaning_en = none := by
  decide

/-- Totality of the POS resolver when the tagger returns at least one
token for every text. -/
lemma get_pos_total (nlp : String → List Token) (h : ∀ t : String, nlp t ≠ [])
    (w s : String) : (get_pos nlp w s).isSome := by
  obtain ⟨t, ts, ht⟩ := List.exists_cons_of_ne_nil (h w)
  simp only [get_pos]
  split
  · simp [ht]
  · rw [ht]
    simp only [List.head?_cons]
    split <;> simp [ht]

/-- C5 amended.  Provided the tagging capability returns at least one
token for every text (in particular for the empty string), a record
with missing "word" or "meaning_en" defaults those fields to the empty
string and processing completes, producing an output entry carrying the
defaults. -/
theorem processItem_defaults_and_completes (nlp : String → List Token)
    (h : ∀ t : String, nlp t ≠ []) (d : String) (i : Nat) (item : WordRecord) :
    ∃ e, processItem nlp d i item = some e ∧
      e.content.word = item.word.getD "" ∧
      e.content.meaning_en = item.meaning_en.getD "" := by
  have hs := get_pos_total nlp h (item.word.getD "")
    (match item.usage_sentences.getD [] with
     | [] => ""
     | s :: _ => s)
  obtain ⟨p, hp⟩ := Option.isSome_iff_exists.mp hs
  refine ⟨{ id := toString i,
            sourceInfo := { pdfName := "Blackbook", examYear := 2025 },
            properties := { difficulty := d, status := "Active" },
            content :=
              { id := i, pos := mapPos p, word := item.word.getD "",
                meaning_en := item.meaning_en.getD "",
                meaning_hi := item.meaning_hi.getD "",
                usage_sentences := item.usage_sentences.getD [],
                note := generate_note (item.word.getD "") (item.meaning_en.getD "")
                  (item.origin.getD ""),
                origin := item.origin.getD "" } }, ?_, rfl, rfl⟩
  simp only [processItem, hp, Option.map_some']

/-- C5 witness: the amended theorem applied to a nonempty-token tagger
and a record with both fields missing. -/
theorem processItem_defaults_witness :
    ∃ e, processItem nlpNOUN "Easy" 1 {} = some e ∧
      e.content.word = ({} : WordRecord).word.getD "" ∧
      e.content.meaning_en = ({} : WordRecord).meaning_en.getD "" :=
  processItem_defaults_and_completes nlpNOUN (fun t => by simp [nlpNOUN]) "Easy" 1 {}

/-- C10.  A non-empty `usage_sentences` whose first element is the empty
string makes the POS resolver behave exactly as with no context
sentence: the word is tagged in isolation (the result depends only on
the tagger's tokens for the word, never on any sentence tokens). -/
theorem empty_first_sentence_tags_in_isolation (nlp : String → List Token)
    (d : String) (i : Nat) (item : WordRecord) (rest : List String)
    (h : item.usage_sentences = some ("" :: rest)) :
    get_pos nlp (item.word.getD "") "" =
      ((nlp (item.word.getD "")).head?).map Token.pos ∧
    (processItem nlp d i item).map (fun e => e.content.pos) =
      ((nlp (item.word.getD "")).head?).map (fun t => mapPos t.pos) := by
  constructor
  · simp [get_pos]
  · simp only [processItem, h, Option.getD_some, get_pos, if_pos rfl]
    cases (nlp (item.word.getD "")).head? <;> simp

/-- C10 witness: a record whose sentence list starts with the empty
string, processed with the noun tagger. -/
def emptyFirstRecord : WordRecord :=
  { word := some "blue", usage_sentences := some ["", "The sky is blue"] }

/-- C10 witness: the theorem applied to `emptyFirstRecord`. -/
theorem empty_first_sentence_witness :
    get_pos nlpNOUN (emptyFirstRecord.word.getD "") "" =
      ((nlpNOUN (emptyFirstRecord.word.getD "")).head?).map Token.pos ∧
    (processItem nlpNOUN "Easy" 5 emptyFirstRecord).map (fun e => e.content.pos) =
      ((nlpNOUN (emptyFirstRecord.word.getD "")).head?).map (fun t => mapPos t.pos) :=
  empty_first_sentence_tags_in_isolation nlpNOUN "Easy" 5 emptyFirstRecord
    ["The sky is blue"] rfl

/-- C8.  The POS resolver, parametric over the opaque tagger: with a
non-empty sentence it returns the label of the first sentence token (in
left-to-right order) whose lemma matches the target's lemma
case-insensitively or whose surface text matches the word
case-insensitively, falls back to the word's isolated label when no
token matches, tags the word in isolation directly when there is no
sentence; the coarse label is mapped through the fixed six-entry table
and any label outside the table is title-cased and passed through. -/
theorem get_pos_spec (nlp : String → List Token) (w s : String) (t0 : Token)
    (hs : s ≠ "") (h0 : (nlp w).head? = some t0) :
    ((∀ (l₁ : List Token) (tk : Token) (l₂ : List Token),
        nlp s = l₁ ++ tk :: l₂ →
        (lowerStr tk.lemma_ == lowerStr t0.lemma_ || lowerStr tk.text == lowerStr w) = true →
        (∀ x ∈ l₁,
          (lowerStr x.lemma_ == lowerStr t0.lemma_ || lowerStr x.text == lowerStr w) = false) →
        get_pos nlp w s = some tk.pos) ∧
     ((∀ tok ∈ nlp s,
        (lowerStr tok.lemma_ == lowerStr t0.lemma_ || lowerStr tok.text == lowerStr w) = false) →
        get_pos nlp w s = some t0.pos)) ∧
    (∀ (nlp2 : String → List Token) (w2 : String),
      get_pos nlp2 w2 "" = ((nlp2 w2).head?).map Token.pos) ∧
    (mapPos "NOUN" = "Noun" ∧ mapPos "VERB" = "Verb" ∧ mapPos "ADJ" = "Adjective" ∧
     mapPos "ADV" = "Adverb" ∧ mapPos "PROPN" = "Proper Noun" ∧ mapPos "PRON" = "Pronoun") ∧
    (∀ p : String, p ≠ "NOUN" → p ≠ "VERB" → p ≠ "ADJ" → p ≠ "ADV" → p ≠ "PROPN" →
      p ≠ "PRON" → mapPos p = strTitle p) := by
  refine ⟨⟨?_, ?_⟩, ?_, by decide, ?_⟩
  · intro l₁ tk l₂ hdec hmatch hnomatch
    simp only [get_pos, if_neg hs, h0]
    rw [hdec, find?_first _ l₁ tk l₂ hmatch hnomatch]
  · intro hall
    have hnone : (nlp s).find? (fun tok =>
        lowerStr tok.lemma_ == lowerStr t0.lemma_ || lowerStr tok.text == lowerStr w) = none :=
      List.find?_eq_none.mpr (fun x hx => by simp [hall x hx])
    simp only [get_pos, if_neg hs, h0, hnone, Option.map_some']
  · intro nlp2 w2
    simp [get_pos]
  · intro p h1 h2 h3 h4 h5 h6
    simp [mapPos, pos_map, List.lookup, beq_eq_false_iff_ne.mpr h1,
      beq_eq_false_iff_ne.mpr h2, beq_eq_false_iff_ne.mpr h3, beq_eq_false_iff_ne.mpr h4,
      beq_eq_false_iff_ne.mpr h5, beq_eq_false_iff_ne.mpr h6]

/-- A tagger stub for the spec's running example: the sentence
"I am running fast" gets four tokens, every other text is one noun
token of itself. -/
def nlpRunning : String → List Token := fun s =>
  if s = "I am running fast" then
    [{ text := "I", lemma_ := "I", pos := "PRON" },
     { text := "am", lemma_ := "be", pos := "AUX" },
     { text := "running", lemma_ := "run", pos := "VERB" },
     { text := "fast", lemma_ := "fast", pos := "ADV" }]
  else [{ text := s, lemma_ := s, pos := "NOUN" }]

/-- C8 witness: the spec's example — "running" in "I am running fast"
resolves to the VERB token by surface-text match on the first matching
token, and "VERB" maps to "Verb"; the title-case fallback on "AUX". -/
theorem get_pos_spec_witness :
    get_pos nlpRunning "running" "I am running fast" = some "VERB" ∧
    mapPos "VERB" = "Verb" ∧ mapPos "AUX" = strTitle "AUX" := by
  have h := get_pos_spec nlpRunning "running" "I am running fast"
    { text := "running", lemma_ := "running", pos := "NOUN" } (by decide) (by decide)
  refine ⟨?_, h.2.2.1.2.1, h.2.2.2 "AUX" (by decide) (by decide) (by decide) (by decide)
    (by decide) (by decide)⟩
  exact h.1.1
    [{ text := "I", lemma_ := "I", pos := "PRON" },
     { text := "am", lemma_ := "be", pos := "AUX" }]
    { text := "running", lemma_ := "run", pos := "VERB" }
    [{ text := "fast", lemma_ := "fast", pos := "ADV" }]
    (by decide) (by decide) (by decide)

/-- Identifier fields of a successfully processed record. -/
lemma processItem_fields {nlp : String → List Token} {d : String} {i : Nat}
    {item : WordRecord} {e : OutputEntry} (h : processItem nlp d i item = some e) :
    e.id = toString i ∧ e.content.id = i := by
  simp only [processItem, Option.map_eq_some'] at h
  obtain ⟨p, _, he⟩ := h
  subst he
  exact ⟨rfl, rfl⟩

/-- The record loop: when it succeeds it produces one entry per record,
returns `start + n` as the next id, and assigns the numeric ids
`start, start+1, …` in order (the string id being their decimal form). -/
lemma processItems_spec (nlp : String → List Token) (d : String) :
    ∀ (items : List WordRecord) (start : Nat) (entries : List OutputEntry) (next : Nat),
      processItems nlp d items start = some (entries, next) →
      entries.length = items.length ∧ next = start + items.length ∧
      entries.map (fun e => e.content.id) = List.range' start items.length ∧
      entries.map (fun e => e.id) = (List.range' start items.length).map toString := by
  intro items
  induction items with
  | nil =>
    intro start entries next h
    simp only [processItems, Option.some.injEq, Prod.mk.injEq] at h
    obtain ⟨rfl, rfl⟩ := h
    simp
  | cons item rest ih =>
    intro start entries next h
    simp only [processItems] at h
    cases hpi : processItem nlp d start item with
    | none => rw [hpi] at h; simp at h
    | some entry =>
      rw [hpi] at h
      cases hrec : processItems nlp d rest (start + 1) with
      | none => rw [hrec] at h; simp at h
      | some pr =>
        obtain ⟨entries2, next2⟩ := pr
        rw [hrec] at h
        simp only [Option.some.injEq, Prod.mk.injEq] at h
        obtain ⟨rfl, rfl⟩ := h
        obtain ⟨hlen, hnext, hcid, hsid⟩ := ih (start + 1) entries2 next2 hrec
        obtain ⟨hid, hcid0⟩ := processItem_fields hpi
        refine ⟨by simp [hlen], by simp [hnext]; omega, ?_, ?_⟩
        · simp [List.range'_succ, hcid0, hcid]
        · simp [List.range'_succ, hid, hsid]

/-- Concatenating the three per-file contiguous id ranges. -/
lemma range'_triple (a b c : Nat) :
    (List.range' 1 a ++ List.range' (1 + a) b) ++ List.range' (1 + a + b) c =
      List.range' 1 (a + b + c) := by
  rw [List.range'_append_1]
  have h1 : 1 + a + b = 1 + (b + a) := by omega
  rw [h1, List.range'_append_1]
  have h2 : c + (b + a) = a + b + c := by omega
  rw [h2]

/-- C1.  Whenever the run succeeds, the concatenated output has exactly
one entry per flattened input record (easy, then moderate, then hard),
and the numeric ids form the contiguous range `[1, n]` in processing
order — unique, increasing by exactly one per record, with the counter
threaded across files; the string ids are their decimal forms. -/
theorem pipeline_ids_contiguous (nlp : String → List Token)
    (easy moderate hard : FileData) (out : List OutputEntry)
    (h : main_result nlp easy moderate hard = some out) :
    out.length =
      (flattenData easy).length + (flattenData moderate).length +
        (flattenData hard).length ∧
    out.map (fun e => e.content.id) = List.range' 1 out.length ∧
    out.map (fun e => e.id) = (List.range' 1 out.length).map toString := by
  simp only [main_result, process_file] at h
  cases h1 : processItems nlp "Easy" (flattenData easy) 1 with
  | none => rw [h1] at h; simp at h
  | some p1 =>
    obtain ⟨i1, id1⟩ := p1
    rw [h1] at h
    dsimp only at h
    cases h2 : processItems nlp "Medium" (flattenData moderate) id1 with
    | none => rw [h2] at h; simp at h
    | some p2 =>
      obtain ⟨i2, id2⟩ := p2
      rw [h2] at h
      dsimp only at h
      cases h3 : processItems nlp "Hard" (flattenData hard) id2 with
      | none => rw [h3] at h; simp at h
      | some p3 =>
        obtain ⟨i3, id3⟩ := p3
        rw [h3] at h
        simp only [Option.some.injEq] at h
        subst h
        obtain ⟨l1, n1, c1, s1⟩ := processItems_spec nlp "Easy" _ _ _ _ h1
        obtain ⟨l2, n2, c2, s2⟩ := processItems_spec nlp "Medium" _ _ _ _ h2
        obtain ⟨l3, n3, c3, s3⟩ := processItems_spec nlp "Hard" _ _ _ _ h3
        subst n1 n2
        refine ⟨by simp only [List.length_append, l1, l2, l3], ?_, ?_⟩
        · simp only [List.map_append, c1, c2, c3, List.length_append, l1, l2, l3]
          exact range'_triple _ _ _
        · simp only [List.length_append, l1, l2, l3]
          rw [List.map_append, List.map_append, s1, s2, s3, ← List.map_append,
            ← List.map_append, range'_triple]

/-- C1 witness inputs: an easy dict with two pages of records and one
skipped non-list page, a flat moderate list, and an ill-shaped hard
file. -/
def easyW : FileData :=
  .dict [("1", some [{ word := some "dog" }, { word := some "cat" }]), ("2", none),
    ("3", some [{ word := some "fish" }])]

/-- C1 witness moderate file. -/
def modW : FileData := .list [{ word := some "ant" }]

/-- C1 witness hard file. -/
def hardW : FileData := .other

/-- C1 witness output: the four entries the pipeline produces. -/
def outW : List OutputEntry :=
  [{ id := "1", sourceInfo := { pdfName := "Blackbook", examYear := 2025 },
     properties := { difficulty := "Easy", status := "Active" },
     content := {
       id := 1, pos := "Noun", word := "dog", meaning_en := "",
       meaning_hi := "", usage_sentences := [], note := "", origin := "" } },
   { id := "2", sourceInfo := { pdfName := "Blackbook", examYear := 2025 },
     properties := { difficulty := "Easy", status := "Active" },
     content := {
       id := 2, pos := "Noun", word := "cat", meaning_en := "",
       meaning_hi := "", usage_sentences := [], note := "", origin := "" } },
   { id := "3", sourceInfo := { pdfName := "Blackbook", examYear := 2025 },
     properties := { difficulty := "Easy", status := "Active" },
     content := {
       id := 3, pos := "Noun", word := "fish", meaning_en := "",
       meaning_hi := "", usage_sentences := [], note := "", origin := "" } },
   { id := "4", sourceInfo := { pdfName := "Blackbook", examYear := 2025 },
     properties := { difficulty := "Medium", status := "Active" },
     content := {
       id := 4, pos := "Noun", word := "ant", meaning_en := "",
       meaning_hi := "", usage_sentences := [], note := "", origin := "" } }]

/-- C1 witness: the contiguity theorem applied to the concrete run. -/
theorem pipeline_ids_contiguous_witness :
    outW.length =
      (flattenData easyW).length + (flattenData modW).length + (flattenData hardW).length ∧
    outW.map (fun e => e.content.id) = List.range' 1 outW.length ∧
    outW.map (fun e => e.id) = (List.range' 1 outW.length).map toString :=
  pipeline_ids_contiguous nlpNOUN easyW modW hardW outW rfl

end MergeOws
